import Mathlib

/-!
Verification of the OSM data-wrangling program (`wrangle.py`).

Strings are modelled as `List Char`.  The Python regular expressions used by
the program are embedded by functions that implement the exact matching
semantics of `re.search` for the three concrete patterns appearing in the
source (no general regex engine is needed):

  * `postcode_format_re = ^\d\x7b5\x7d(?:[-\s]\d\x7b4\x7d)?$`
  * `street_type_re = \b\S+\.?$` (IGNORECASE, irrelevant: no cased literal)
  * `PROBLEMCHARS` (a plain character class, used only via `search`)

Python specifics that the embedding preserves: `$` also matches just before
one trailing newline; `\s` is the Python string whitespace set; `re.search`
returns the leftmost match.  Character classes `\w` and `\d` are modelled on
their ASCII fragment (the Unicode letter/digit tables are out of scope; all
data relevant to the claims is ASCII).
-/

namespace Wrangle

/-- Shorthand: string literal to `List Char`. -/
def sl (s : String) : List Char := s.toList

/-- Truthiness of a Python string: nonempty strings are truthy. -/
def pyTruthy (s : List Char) : Bool := !s.isEmpty

/-- The Python whitespace set (matched by `\s` on `str`, and used by
`str.split()`): tab through carriage return, the file/group/record/unit
separators, space, NEL, NBSP and the Unicode space characters. -/
def pyIsSpace (c : Char) : Bool :=
  c.toNat == 32 || c.toNat == 9 || c.toNat == 10 || c.toNat == 11 ||
  c.toNat == 12 || c.toNat == 13 ||
  (decide (28 ≤ c.toNat) && decide (c.toNat ≤ 31)) || c.toNat == 0x85 ||
  c.toNat == 0xa0 || c.toNat == 0x1680 ||
  (decide (0x2000 ≤ c.toNat) && decide (c.toNat ≤ 0x200a)) ||
  c.toNat == 0x2028 || c.toNat == 0x2029 || c.toNat == 0x202f ||
  c.toNat == 0x205f || c.toNat == 0x3000

/-- ASCII fragment of the Python `\w` class: letters, digits, underscore. -/
def pyIsWord (c : Char) : Bool :=
  (decide (65 ≤ c.toNat) && decide (c.toNat ≤ 90)) ||
  (decide (97 ≤ c.toNat) && decide (c.toNat ≤ 122)) ||
  (decide (48 ≤ c.toNat) && decide (c.toNat ≤ 57)) ||
  c.toNat == 95

/-- Python substring containment, `needle in hay`. -/
def pyInStr (needle : List Char) : List Char → Bool
  | [] => needle.isEmpty
  | c :: rest => needle.isPrefixOf (c :: rest) || pyInStr needle rest

/-- Python `s.rstrip(chars)`: remove the longest trailing run of characters
drawn from `chars`. -/
def pyRstrip (s : List Char) (chars : List Char) : List Char :=
  (s.reverse.dropWhile (fun c => chars.contains c)).reverse

/-- Python `s.split()` (no separator): split on runs of whitespace,
discarding leading and trailing whitespace. -/
def pySplitWs : List Char → List (List Char)
  | [] => []
  | c :: rest =>
    if pyIsSpace c then pySplitWs rest
    else
      match rest with
      | [] => [[c]]
      | d :: _ =>
        if pyIsSpace d then [c] :: pySplitWs rest
        else
          match pySplitWs rest with
          | [] => [[c]]
          | t :: ts => (c :: t) :: ts

/-- Python `w.capitalize()` on the ASCII fragment: first character
uppercased, the rest lowercased. -/
def pyCapitalize (w : List Char) : List Char :=
  match w with
  | [] => []
  | c :: rest => c.toUpper :: rest.map Char.toLower

/-- Python `string.capwords(s)`: split on whitespace, capitalize each word,
join with single spaces. -/
def capwords (s : List Char) : List Char :=
  List.intercalate [' '] ((pySplitWs s).map pyCapitalize)

/-- `update_city_name` from the source.  The Python condition
`if ', WA' or ',WA' in name` parses as `(', WA') or (',WA' in name)`,
whose first operand is a truthy literal, so the strip always runs. -/
def update_city_name (name : List Char) : List Char :=
  let name1 := if pyTruthy (sl ", WA") || pyInStr (sl ",WA") name
    then pyRstrip name (sl ", WA") else name
  capwords name1

/-- The street-suffix abbreviation table from the source. -/
def mapping : List (List Char × List Char) :=
  [(sl "St", sl "Street"),
   (sl "St.", sl "Street"),
   (sl "Rd.", sl "Road"),
   (sl "Ave", sl "Avenue"),
   (sl "NE", sl "Northeast"),
   (sl "NW", sl "Northwest"),
   (sl "SE", sl "Southeast"),
   (sl "SW", sl "Southwest"),
   (sl "WY", sl "Way"),
   (sl "Ln", sl "Lane"),
   (sl "ln", sl "Lane")]

/-- Split off one trailing newline, the positions at which the Python `$`
anchor can match: `$` matches at the end of the string and also just before
a newline that ends the string. -/
def splitNl (s : List Char) : List Char × List Char :=
  if s.getLast? = some '\n' then (s.dropLast, ['\n']) else (s, [])

/-- Split a string into its front part and its maximal trailing run of
non-whitespace characters (the only region in which `\b\S+\.?$` can match). -/
def lastRun (s : List Char) : List Char × List Char :=
  ((s.reverse.dropWhile (fun c => !pyIsSpace c)).reverse,
   (s.reverse.takeWhile (fun c => !pyIsSpace c)).reverse)

/-- Index of the leftmost word boundary (`\b`) inside a run, given whether
the character preceding the run is a word character. -/
def firstBoundary (pw : Bool) : List Char → Option Nat
  | [] => none
  | c :: rest =>
    if pw != pyIsWord c then some 0
    else (firstBoundary (pyIsWord c) rest).map (· + 1)

/-- `street_type_re.search`: the leftmost match of `\b\S+\.?$`.  Returns
`(front, skipped, match, tail)` with the input equal to
`front ++ skipped ++ match ++ tail`: `front` ends at the start of the
trailing non-whitespace run, `skipped` is the part of that run before the
leftmost word boundary, `match` is the matched text and `tail` is the
trailing newline tolerated by `$` (if any).  Greedy `\S+` makes the match
run to the anchor, and `\.?` can only match empty there. -/
def street_type_re_search (name : List Char) :
    Option (List Char × List Char × List Char × List Char) :=
  let bt := splitNl name
  let pr := lastRun bt.1
  match firstBoundary (match pr.1.getLast? with
      | some c => pyIsWord c
      | none => false) pr.2 with
  | none => none
  | some j => some (pr.1, pr.2.take j, pr.2.drop j, bt.2)

/-- `update_street_name` from the source: find the last part of the street
name with `street_type_re.search`, and if it is a key of `mapping`,
substitute the expansion for the matched text (`street_type_re.sub` replaces
exactly the one anchored match). -/
def update_street_name (name : List Char) (mapping : List (List Char × List Char)) :
    List Char :=
  match street_type_re_search name with
  | none => name
  | some (front, skipped, street_type, tl) =>
    match List.lookup street_type mapping with
    | some better_street_type => front ++ skipped ++ better_street_type ++ tl
    | none => name

/-- `postcode_format_re.search`: whether `^\d\x7b5\x7d(?:[-\s]\d\x7b4\x7d)?$`
matches (anchored at position 0 by `^`; `$` as in `splitNl`). -/
def postcode_format_re_search (s : List Char) : Bool :=
  decide (5 ≤ s.length) && (s.take 5).all Char.isDigit &&
  ((s.drop 5 == ([] : List Char) || s.drop 5 == ['\n']) ||
   ((match s.drop 5 with
     | c :: _ => c == '-' || pyIsSpace c
     | [] => false) &&
    decide (4 ≤ (s.drop 6).length) && ((s.drop 6).take 4).all Char.isDigit &&
    (s.drop 10 == ([] : List Char) || s.drop 10 == ['\n'])))

/-- `update_postcode` from the source (the `invalid` parameter defaults to
`true` at every call site). -/
def update_postcode (postcode : List Char) (invalid : Bool) : Bool × List Char :=
  if postcode_format_re_search postcode then (false, postcode.take 5)
  else (invalid, postcode)


/-! ## The element model and the record extractors -/

/-- One `tag` child element, with its `k` and `v` attributes (present on
every tag child the program processes; a missing one would abort the run
before any shaping decision relevant to the claims). -/
structure OsmTag where
  k : List Char
  v : List Char
  deriving DecidableEq

/-- One top-level element of the source document: its element kind (`tag`
in the ElementTree sense), attribute dictionary, `tag` children and `nd`
children (the `ref` attribute of each), all in document order. -/
structure OsmElement where
  tag : List Char
  attrib : List (List Char × List Char)
  tags : List OsmTag
  nds : List (List Char)
  deriving DecidableEq

/-- The `PROBLEMCHARS` character class. -/
def PROBLEMCHARS : List Char :=
  ['=', '+', '/', '&', '<', '>', ';', Char.ofNat 39, Char.ofNat 34, '?', '%',
   '#', '$', '@', ',', '.', ' ', '\t', '\r', '\n']

/-- `search` for a plain character class: succeeds when some character of
the string belongs to the class. -/
def re_class_search (cls : List Char) (s : List Char) : Bool :=
  s.any (fun c => cls.contains c)

def NODE_FIELDS : List (List Char) :=
  [sl "id", sl "lat", sl "lon", sl "user", sl "uid", sl "version",
   sl "changeset", sl "timestamp"]

def WAY_FIELDS : List (List Char) :=
  [sl "id", sl "user", sl "uid", sl "version", sl "changeset", sl "timestamp"]

/-- A row of the tags tables. -/
structure TagRecord where
  id : List Char
  key : List Char
  value : List Char
  type : List Char
  deriving DecidableEq

/-- A row of the way-nodes table. -/
structure WayNodeRecord where
  id : List Char
  node_id : List Char
  position : Nat
  deriving DecidableEq

/-- Result of `extract_node`. -/
structure NodeOut where
  node : List (List Char × List Char)
  node_tags : List TagRecord
  deriving DecidableEq

/-- Result of `extract_way`. -/
structure WayOut where
  way : List (List Char × List Char)
  way_nodes : List WayNodeRecord
  way_tags : List TagRecord
  deriving DecidableEq

/-- The attribute-copying loop `for key in fields: attribs[key] =
element.attrib[key]`.  A missing attribute raises `KeyError` (modelled as
`.error` carrying the offending field), which aborts the extraction. -/
def extract_attribs (fields : List (List Char)) (attrib : List (List Char × List Char)) :
    Except (List Char) (List (List Char × List Char)) :=
  match fields with
  | [] => .ok []
  | f :: rest =>
    match List.lookup f attrib with
    | none => .error f
    | some v => (extract_attribs rest attrib).map (fun l => (f, v) :: l)

/-- Body of the tag loop of `extract_node`: drop the tag on a problem
character, split `type`/`key` on the first colon (default type otherwise),
then audit the value: city update for key `city`; street update under the
source condition `key == "street" or "street:name"` (a truthy-literal
disjunction); postcode check and `fixme:` prefix for key `postcode`. -/
def node_shape_tag (problem_chars : List Char) (default_tag_type : List Char)
    (idv : List Char) (tag : OsmTag) : Option TagRecord :=
  if re_class_search problem_chars tag.k then none
  else
    let ty := if pyInStr (sl ":") tag.k then tag.k.takeWhile (fun c => c != ':')
      else default_tag_type
    let ky := if pyInStr (sl ":") tag.k then (tag.k.dropWhile (fun c => c != ':')).tail
      else tag.k
    let v1 := if ky == sl "city" then update_city_name tag.v else tag.v
    let v2 := if ky == sl "street" || pyTruthy (sl "street:name")
      then update_street_name v1 mapping else v1
    let v3 := if ky == sl "postcode" then
        (let ip := update_postcode v2 true
         if ip.1 then sl "fixme:" ++ ip.2 else ip.2)
      else v2
    some { id := idv, key := ky, value := v3, type := ty }

/-- Body of the tag loop of `extract_way` (duplicated in the source with
the same logic as the node tag loop). -/
def way_shape_tag (problem_chars : List Char) (default_tag_type : List Char)
    (idv : List Char) (tag : OsmTag) : Option TagRecord :=
  if re_class_search problem_chars tag.k then none
  else
    let ty := if pyInStr (sl ":") tag.k then tag.k.takeWhile (fun c => c != ':')
      else default_tag_type
    let ky := if pyInStr (sl ":") tag.k then (tag.k.dropWhile (fun c => c != ':')).tail
      else tag.k
    let v1 := if ky == sl "city" then update_city_name tag.v else tag.v
    let v2 := if ky == sl "street" || pyTruthy (sl "street:name")
      then update_street_name v1 mapping else v1
    let v3 := if ky == sl "postcode" then
        (let ip := update_postcode v2 true
         if ip.1 then sl "fixme:" ++ ip.2 else ip.2)
      else v2
    some { id := idv, key := ky, value := v3, type := ty }

/-- `extract_node` from the source. -/
def extract_node (element : OsmElement) (node_attr_fields : List (List Char))
    (problem_chars : List Char) (default_tag_type : List Char) :
    Except (List Char) NodeOut :=
  match extract_attribs node_attr_fields element.attrib with
  | .error f => .error f
  | .ok attribs =>
    match List.lookup (sl "id") attribs with
    | none => .error (sl "id")
    | some idv =>
      .ok { node := attribs,
            node_tags := element.tags.filterMap
              (node_shape_tag problem_chars default_tag_type idv) }

/-- `extract_way` from the source: attributes, tag records, and one
way-node record per `nd` child via `enumerate`. -/
def extract_way (element : OsmElement) (way_attr_fields : List (List Char))
    (problem_chars : List Char) (default_tag_type : List Char) :
    Except (List Char) WayOut :=
  match extract_attribs way_attr_fields element.attrib with
  | .error f => .error f
  | .ok attribs =>
    match List.lookup (sl "id") attribs with
    | none => .error (sl "id")
    | some idv =>
      .ok { way := attribs,
            way_nodes := element.nds.enum.map
              (fun p => { id := idv, node_id := p.2, position := p.1 }),
            way_tags := element.tags.filterMap
              (way_shape_tag problem_chars default_tag_type idv) }

/-- The two result shapes of `extract_element`. -/
inductive ShapedElement where
  | node (r : NodeOut)
  | way (r : WayOut)
  deriving DecidableEq

/-- `extract_element` from the source: dispatch on the element kind; any
kind other than `node` and `way` falls through (Python implicitly returns
`None`, modelled by `.ok none`). -/
def extract_element (element : OsmElement) (default_tag_type : List Char) :
    Except (List Char) (Option ShapedElement) :=
  if element.tag == sl "node" then
    (extract_node element NODE_FIELDS PROBLEMCHARS default_tag_type).map
      (fun r => some (ShapedElement.node r))
  else if element.tag == sl "way" then
    (extract_way element WAY_FIELDS PROBLEMCHARS default_tag_type).map
      (fun r => some (ShapedElement.way r))
  else .ok none

/-- The rows written to the five output tables. -/
structure CsvBatch where
  nodes : List (List (List Char × List Char))
  node_tags : List TagRecord
  ways : List (List (List Char × List Char))
  way_nodes : List WayNodeRecord
  way_tags : List TagRecord
  deriving DecidableEq

def emptyBatch : CsvBatch :=
  { nodes := [], node_tags := [], ways := [],
    way_nodes := [], way_tags := [] }

/-- The per-element step of `process_map`: extract (with the default tag
type), and on a truthy result route the records to their tables; a falsy
result (`None`) writes nothing.  In the source the routing re-checks
`element.tag`, which by construction agrees with the result variant. -/
def element_rows (element : OsmElement) : Except (List Char) CsvBatch :=
  match extract_element element (sl "regular") with
  | .error e => .error e
  | .ok none => .ok emptyBatch
  | .ok (some (ShapedElement.node r)) =>
    .ok { nodes := [r.node], node_tags := r.node_tags, ways := [],
          way_nodes := [], way_tags := [] }
  | .ok (some (ShapedElement.way r)) =>
    .ok { nodes := [], node_tags := [], ways := [r.way],
          way_nodes := r.way_nodes, way_tags := r.way_tags }


/-! ## Spec-side definitions used to state the claims -/

/-- The type component of the key/type split rule as the spec states it:
the substring before the first colon, else the literal `regular`. -/
def tag_type_of (k : List Char) : List Char :=
  if pyInStr (sl ":") k then k.takeWhile (fun c => c != ':') else sl "regular"

/-- The key component of the key/type split rule as the spec states it:
the substring after the first colon, else the raw key. -/
def tag_key_of (k : List Char) : List Char :=
  if pyInStr (sl ":") k then (k.dropWhile (fun c => c != ':')).tail else k

/-- The city normalization step by destination key, as the spec states it. -/
def city_step (ky v : List Char) : List Char :=
  if ky = sl "city" then update_city_name v else v

/-- The postcode normalization step by destination key, as the spec states
it: check the value and prefix `fixme:` when the check signals invalid. -/
def postcode_step (ky v : List Char) : List Char :=
  if ky = sl "postcode" then
    (let ip := update_postcode v true
     if ip.1 then sl "fixme:" ++ ip.2 else ip.2)
  else v

/-- The claim's notion of a valid postcode, written from the claim text:
exactly 5 digits, or 5 digits followed by one hyphen or one space and 4
digits. -/
def claim_postcode_valid (s : List Char) : Bool :=
  (s.length == 5 && s.all Char.isDigit) ||
  (s.length == 10 && (s.take 5).all Char.isDigit &&
    (match s.drop 5 with
     | c :: _ => c == '-' || c == ' '
     | [] => false) &&
    (s.drop 6).all Char.isDigit)

/-- The amended characterization of the strings accepted by
`postcode_format_re`: 5 digits, optionally followed by one hyphen or
whitespace character and 4 digits, optionally followed by one trailing
newline. -/
def PostcodeSpec (code : List Char) : Prop :=
  ∃ d r, code = d ++ r ∧ d.length = 5 ∧ d.all Char.isDigit = true ∧
    (r = [] ∨ r = ['\n'] ∨
      ∃ sep e t, r = sep :: (e ++ t) ∧ (sep = '-' ∨ pyIsSpace sep = true) ∧
        e.length = 4 ∧ e.all Char.isDigit = true ∧ (t = [] ∨ t = ['\n']))

/-! ## Concrete elements used as witnesses -/

/-- A well-formed node element with one postcode tag. -/
def elNode : OsmElement :=
  { tag := sl "node",
    attrib := [(sl "id", sl "1"), (sl "lat", sl "47.1"), (sl "lon", sl "-122.3"),
               (sl "user", sl "u"), (sl "uid", sl "2"), (sl "version", sl "1"),
               (sl "changeset", sl "3"), (sl "timestamp", sl "t")],
    tags := [{ k := sl "addr:postcode", v := sl "98199" }],
    nds := [] }

/-- The same node with an invalid postcode value ending in a mapped street
abbreviation. -/
def elPost : OsmElement :=
  { tag := sl "node",
    attrib := [(sl "id", sl "1"), (sl "lat", sl "47.1"), (sl "lon", sl "-122.3"),
               (sl "user", sl "u"), (sl "uid", sl "2"), (sl "version", sl "1"),
               (sl "changeset", sl "3"), (sl "timestamp", sl "t")],
    tags := [{ k := sl "addr:postcode", v := sl "123 St" }],
    nds := [] }

/-- A well-formed way element with three node references. -/
def elWay3 : OsmElement :=
  { tag := sl "way",
    attrib := [(sl "id", sl "7"), (sl "user", sl "u"), (sl "uid", sl "2"),
               (sl "version", sl "1"), (sl "changeset", sl "3"), (sl "timestamp", sl "t")],
    tags := [],
    nds := [sl "n1", sl "n2", sl "n3"] }

/-- An element of a kind the extractor does not handle. -/
def elRel : OsmElement :=
  { tag := sl "relation", attrib := [], tags := [], nds := [] }

/-! ## Helper lemmas -/

theorem takeWhile_append_all {α} (p : α → Bool) (l1 l2 : List α) (h : l1.all p = true) :
    (l1 ++ l2).takeWhile p = l1 ++ l2.takeWhile p := by
  induction l1 with
  | nil => simp
  | cons a l ih =>
    simp only [List.all_cons, Bool.and_eq_true] at h
    simp [List.takeWhile_cons, h.1, ih h.2]

theorem dropWhile_append_all {α} (p : α → Bool) (l1 l2 : List α) (h : l1.all p = true) :
    (l1 ++ l2).dropWhile p = l2.dropWhile p := by
  induction l1 with
  | nil => simp
  | cons a l ih =>
    simp only [List.all_cons, Bool.and_eq_true] at h
    simp [List.dropWhile_cons, h.1, ih h.2]

theorem takeWhile_all {α} (p : α → Bool) (l : List α) : (l.takeWhile p).all p = true :=
  List.all_eq_true.mpr (fun _ hx => List.mem_takeWhile_imp hx)

theorem dropWhile_head_false {α} (p : α → Bool) (l : List α) (c : α)
    (h : (l.dropWhile p).head? = some c) : p c = false := by
  induction l with
  | nil => simp at h
  | cons a l ih =>
    rw [List.dropWhile_cons] at h
    split at h
    · exact ih h
    · rename_i hp
      injection h with h
      subst h
      exact Bool.of_not_eq_true hp

theorem lookup_mem {α β} [BEq α] [LawfulBEq α] {a : α} {b : β} {l : List (α × β)}
    (h : List.lookup a l = some b) : (a, b) ∈ l := by
  induction l with
  | nil => simp [List.lookup] at h
  | cons p rest ih =>
    rcases p with ⟨k, v⟩
    simp only [List.lookup] at h
    split at h
    · rename_i hk
      have hak : a = k := eq_of_beq hk
      injection h with hb
      subst hak
      subst hb
      exact List.mem_cons_self _ _
    · exact List.mem_cons_of_mem _ (ih h)

theorem lookup_isSome_of_mem_keys {α β} [BEq α] [LawfulBEq α] {a : α} {l : List (α × β)}
    (h : a ∈ l.map Prod.fst) : (List.lookup a l).isSome = true := by
  induction l with
  | nil => simp at h
  | cons p rest ih =>
    rcases p with ⟨k, v⟩
    simp only [List.map_cons, List.mem_cons] at h
    simp only [List.lookup]
    rcases h with h | h
    · have : (a == k) = true := beq_iff_eq.mpr h
      simp [this]
    · cases hk : a == k
      · simpa [hk] using ih h
      · simp [hk]

/-- Python whitespace characters are not word characters. -/
theorem space_not_word (c : Char) (h : pyIsSpace c = true) : pyIsWord c = false := by
  simp only [pyIsSpace, Bool.or_eq_true, Bool.and_eq_true, decide_eq_true_eq,
    beq_iff_eq] at h
  simp only [pyIsWord, Bool.or_eq_false_iff, Bool.and_eq_false_iff,
    decide_eq_false_iff_not, beq_eq_false_iff_ne]
  omega

theorem not_space_ne_nl (c : Char) (h : pyIsSpace c = false) : c ≠ '\n' := by
  intro h2
  subst h2
  exact absurd h (by decide)

/-- `splitNl` decomposes its input, and its second component is empty or a
single newline. -/
theorem splitNl_eq (s a b : List Char) (h : splitNl s = (a, b)) :
    a ++ b = s ∧ (b = [] ∨ b = ['\n']) := by
  unfold splitNl at h
  split at h
  · rename_i hl
    injection h with h1 h2
    subst h1
    subst h2
    have hne : s ≠ [] := by
      intro h2
      rw [h2] at hl
      simp at hl
    have hlast : s.getLast hne = '\n' := by
      have h3 := List.getLast?_eq_getLast s hne
      rw [h3] at hl
      exact Option.some_inj.mp hl
    refine ⟨?_, Or.inr rfl⟩
    rw [← hlast]
    exact List.dropLast_append_getLast hne
  · injection h with h1 h2
    subst h1
    subst h2
    exact ⟨List.append_nil s, Or.inl rfl⟩

theorem splitNl_concat_nl (xs : List Char) : splitNl (xs ++ ['\n']) = (xs, ['\n']) := by
  simp [splitNl, List.getLast?_concat, List.dropLast_concat]

theorem splitNl_not_nl (s : List Char) (h : s.getLast? ≠ some '\n') : splitNl s = (s, []) := by
  simp [splitNl, h]

/-- `lastRun` decomposes its input into a front part ending in whitespace
(or empty) and a trailing run of non-whitespace characters. -/
theorem lastRun_eq (s a b : List Char) (h : lastRun s = (a, b)) :
    a ++ b = s ∧ b.all (fun c => !pyIsSpace c) = true ∧
    (a = [] ∨ ∃ c, a.getLast? = some c ∧ pyIsSpace c = true) := by
  unfold lastRun at h
  injection h with h1 h2
  subst h1
  subst h2
  refine ⟨?_, ?_, ?_⟩
  · rw [← List.reverse_append, List.takeWhile_append_dropWhile, List.reverse_reverse]
  · rw [List.all_reverse]
    exact takeWhile_all _ _
  · cases hd : List.dropWhile (fun c => !pyIsSpace c) s.reverse with
    | nil =>
      left
      rfl
    | cons d ds =>
      right
      refine ⟨d, ?_, ?_⟩
      · rw [List.getLast?_reverse]
        rfl
      · have hc : (!pyIsSpace d) = false := dropWhile_head_false _ s.reverse d (by rw [hd]; rfl)
        simpa using hc

/-- If the front ends in whitespace (or is empty) and the run is
non-whitespace, `lastRun` recovers exactly that decomposition. -/
theorem lastRun_append (front run : List Char)
    (hfront : front = [] ∨ ∃ c, front.getLast? = some c ∧ pyIsSpace c = true)
    (hrun : run.all (fun c => !pyIsSpace c) = true) :
    lastRun (front ++ run) = (front, run) := by
  unfold lastRun
  rw [List.reverse_append]
  have hrev : run.reverse.all (fun c => !pyIsSpace c) = true := by
    rw [List.all_reverse]; exact hrun
  rw [takeWhile_append_all _ _ _ hrev, dropWhile_append_all _ _ _ hrev]
  have htw : List.takeWhile (fun c => !pyIsSpace c) front.reverse = [] := by
    rcases hfront with rfl | ⟨d, hd, hds⟩
    · rfl
    · cases hfr : front.reverse with
      | nil =>
        rfl
      | cons e es =>
        have hh : front.reverse.head? = some d := by rw [List.head?_reverse]; exact hd
        rw [hfr] at hh
        injection hh with hh
        subst hh
        rw [List.takeWhile_cons, if_neg (by simp [hds])]
  have hdw : List.dropWhile (fun c => !pyIsSpace c) front.reverse = front.reverse := by
    rcases hfront with rfl | ⟨d, hd, hds⟩
    · rfl
    · cases hfr : front.reverse with
      | nil =>
        rfl
      | cons e es =>
        have hh : front.reverse.head? = some d := by rw [List.head?_reverse]; exact hd
        rw [hfr] at hh
        injection hh with hh
        subst hh
        rw [List.dropWhile_cons, if_neg (by simp [hds])]
  rw [htw, hdw, List.append_nil, List.reverse_reverse, List.reverse_reverse]

theorem firstBoundary_lt (pw : Bool) (l : List Char) (j : Nat)
    (h : firstBoundary pw l = some j) : j < l.length := by
  induction l generalizing pw j with
  | nil => simp [firstBoundary] at h
  | cons c rest ih =>
    rw [firstBoundary] at h
    split at h
    · injection h with h
      subst h
      simp
    · rcases Option.map_eq_some'.mp h with ⟨j0, hj0, hj⟩
      have := ih _ _ hj0
      simp only [List.length_cons]
      omega

theorem firstBoundary_start (c : Char) (rest : List Char) (h : pyIsWord c = true) :
    firstBoundary false (c :: rest) = some 0 := by
  rw [firstBoundary, if_pos (by simp [h])]

/-- Replacing the part of a run after its first word boundary by another
string whose first character has the same word status preserves the
position of the first boundary. -/
theorem firstBoundary_congr (skipped : List Char) (pw : Bool) (c c2 : Char)
    (rest rest2 : List Char)
    (h : firstBoundary pw (skipped ++ c :: rest) = some skipped.length)
    (hc : pyIsWord c2 = pyIsWord c) :
    firstBoundary pw (skipped ++ c2 :: rest2) = some skipped.length := by
  induction skipped generalizing pw with
  | nil =>
    simp only [List.nil_append, List.length_nil] at h ⊢
    rw [firstBoundary] at h
    rw [firstBoundary]
    split at h
    · rename_i hcond
      rw [if_pos (by rw [hc]; exact hcond)]
    · exfalso
      rcases Option.map_eq_some'.mp h with ⟨j0, _, hj⟩
      omega
  | cons a as ih =>
    simp only [List.cons_append, List.length_cons] at h ⊢
    rw [firstBoundary] at h
    rw [firstBoundary]
    split at h
    · exfalso
      injection h with h
      omega
    · rename_i hcond
      rw [if_neg hcond]
      rcases Option.map_eq_some'.mp h with ⟨j0, hj0, hj⟩
      have hj0e : j0 = as.length := by omega
      subst hj0e
      rw [ih _ hj0]
      rfl

theorem getLast?_append_ne_nil {α} (l1 l2 : List α) (h : l2 ≠ []) :
    (l1 ++ l2).getLast? = l2.getLast? := by
  rw [List.getLast?_append]
  cases hl : l2.getLast? with
  | none =>
    exfalso
    have h2 : l2.getLast?.isSome = true := List.getLast?_isSome.mpr h
    rw [hl] at h2
    simp at h2
  | some c => rfl

/-- Characterization of a successful `street_type_re` search: the name
decomposes as `front ++ skipped ++ tok ++ tl` where `tl` is at most one
newline, `front` is empty or ends in whitespace, `skipped ++ tok` is free
of whitespace, the first word boundary of the run sits at the start of
`tok`, and the matched text `tok` is nonempty. -/
theorem search_eq_some (name front skipped tok tl : List Char)
    (h : street_type_re_search name = some (front, skipped, tok, tl)) :
    name = front ++ skipped ++ tok ++ tl ∧
    (tl = [] ∨ tl = ['\n']) ∧
    (front = [] ∨ ∃ c, front.getLast? = some c ∧ pyIsSpace c = true) ∧
    (skipped ++ tok).all (fun c => !pyIsSpace c) = true ∧
    firstBoundary (match front.getLast? with
      | some c => pyIsWord c
      | none => false) (skipped ++ tok) = some skipped.length ∧
    tok ≠ [] := by
  rcases hsp : splitNl name with ⟨body, tl0⟩
  rcases hlr : lastRun body with ⟨front0, run⟩
  simp only [street_type_re_search, hsp, hlr] at h
  split at h
  · exact absurd h (by simp)
  · rename_i j hfb
    injection h with h0
    injection h0 with h1 h2
    injection h2 with h2 h3
    injection h3 with h3 h4
    subst h1
    subst h2
    subst h3
    subst h4
    obtain ⟨hbody, htl0⟩ := splitNl_eq name body tl0 (by rw [hsp])
    obtain ⟨hfr, hrall, hfront⟩ := lastRun_eq body front0 run (by rw [hlr])
    have hjlt : j < run.length := firstBoundary_lt _ _ _ hfb
    have htd : run.take j ++ run.drop j = run := List.take_append_drop j run
    have hlen : (run.take j).length = j := by
      rw [List.length_take]
      omega
    refine ⟨?_, htl0, hfront, ?_, ?_, ?_⟩
    · calc name = body ++ tl0 := hbody.symm
        _ = (front0 ++ run) ++ tl0 := by rw [← hfr]
        _ = (front0 ++ (run.take j ++ run.drop j)) ++ tl0 := by rw [htd]
        _ = ((front0 ++ run.take j) ++ run.drop j) ++ tl0 := by
              rw [← List.append_assoc front0 (run.take j) (run.drop j)]
    · rw [htd]
      exact hrall
    · rw [htd, hlen]
      exact hfb
    · intro hnil
      rw [List.drop_eq_nil_iff] at hnil
      omega

/-- Conversely, a decomposition with the right shape determines the result
of the search. -/
theorem search_parts (front run tl : List Char) (j : Nat)
    (hfront : front = [] ∨ ∃ c, front.getLast? = some c ∧ pyIsSpace c = true)
    (hrun : run.all (fun c => !pyIsSpace c) = true)
    (hrun0 : run ≠ [])
    (htl : tl = [] ∨ tl = ['\n'])
    (hfb : firstBoundary (match front.getLast? with
      | some c => pyIsWord c
      | none => false) run = some j) :
    street_type_re_search (front ++ run ++ tl) = some (front, run.take j, run.drop j, tl) := by
  have hsp : splitNl (front ++ run ++ tl) = (front ++ run, tl) := by
    rcases htl with rfl | rfl
    · rw [List.append_nil]
      apply splitNl_not_nl
      rw [getLast?_append_ne_nil _ _ hrun0]
      have hg := List.getLast?_eq_getLast run hrun0
      have hmem : run.getLast hrun0 ∈ run := List.getLast_mem hrun0
      have hns : (!pyIsSpace (run.getLast hrun0)) = true := List.all_eq_true.mp hrun _ hmem
      have hnl : run.getLast hrun0 ≠ '\n' := not_space_ne_nl _ (by simpa using hns)
      rw [hg]
      intro hcontra
      exact hnl (Option.some_inj.mp hcontra)
    · exact splitNl_concat_nl _
  have hlr : lastRun (front ++ run) = (front, run) := lastRun_append front run hfront hrun
  simp only [street_type_re_search, hsp, hlr, hfb]

theorem mapping_key_head : ∀ p ∈ mapping, (match p.1 with
    | c :: _ => pyIsWord c
    | [] => false) = true := by decide

theorem mapping_val_props : ∀ p ∈ mapping,
    (match p.2 with
     | c :: _ => pyIsWord c
     | [] => false) = true ∧
    p.2.all (fun c => !pyIsSpace c) = true ∧
    p.2 ≠ [] ∧
    List.lookup p.2 mapping = none := by decide

/-- Evaluation of `update_street_name` when the search succeeds and the
matched text is a key of the table. -/
theorem update_street_some (name front skipped tok tl better : List Char)
    (m : List (List Char × List Char))
    (hs : street_type_re_search name = some (front, skipped, tok, tl))
    (hlk : List.lookup tok m = some better) :
    update_street_name name m = front ++ skipped ++ better ++ tl := by
  unfold update_street_name
  rw [hs]
  show (match List.lookup tok m with
    | some b => front ++ skipped ++ b ++ tl
    | none => name) = front ++ skipped ++ better ++ tl
  rw [hlk]

/-- Evaluation of `update_street_name` when the search succeeds but the
matched text is not a key of the table. -/
theorem update_street_nokey (name front skipped tok tl : List Char)
    (m : List (List Char × List Char))
    (hs : street_type_re_search name = some (front, skipped, tok, tl))
    (hlk : List.lookup tok m = none) :
    update_street_name name m = name := by
  unfold update_street_name
  rw [hs]
  show (match List.lookup tok m with
    | some b => front ++ skipped ++ b ++ tl
    | none => name) = name
  rw [hlk]

/-- Evaluation of `update_street_name` when the search fails. -/
theorem update_street_nomatch (name : List Char) (m : List (List Char × List Char))
    (hs : street_type_re_search name = none) :
    update_street_name name m = name := by
  unfold update_street_name
  rw [hs]

/-! ## Claim C6 -/

/-- Claim C6, counterexample: the street name `Main St ` (trailing space)
has final whitespace-delimited token `St`, a key of the mapping mapped to
`Street`, yet `update_street_name` returns the name unchanged rather than
replacing the token (the anchored regex cannot match before trailing
whitespace), contradicting the claim. -/
theorem C6_counterexample :
    update_street_name (sl "Main St ") mapping = sl "Main St " ∧
    (pySplitWs (sl "Main St ")).getLast? = some (sl "St") ∧
    List.lookup (sl "St") mapping = some (sl "Street") ∧
    sl "Main St " ≠ sl "Main Street " := by decide

/-- Claim C6 (amended): for a street name of the form
`front ++ tok ++ tl` where `front` is empty or ends in whitespace, `tok`
is a nonempty whitespace-free final token starting with a word character,
and `tl` is empty or a single trailing newline, `update_street_name`
replaces exactly `tok` by its mapped expansion when `tok` is a key of the
mapping (case-sensitively), and returns the name unchanged when it is not.
Names whose final token does not reach the end of the string (for example
with trailing whitespace) are not covered: they are left unchanged even
when the final token is a key. -/
theorem C6_theorem (front tok tl : List Char)
    (hfront : front = [] ∨ ∃ c, front.getLast? = some c ∧ pyIsSpace c = true)
    (htok : tok ≠ [])
    (hns : tok.all (fun c => !pyIsSpace c) = true)
    (hw : ∀ c, tok.head? = some c → pyIsWord c = true)
    (htl : tl = [] ∨ tl = ['\n']) :
    update_street_name (front ++ tok ++ tl) mapping =
      match List.lookup tok mapping with
      | some better => front ++ better ++ tl
      | none => front ++ tok ++ tl := by
  have hfb : firstBoundary (match front.getLast? with
      | some c => pyIsWord c
      | none => false) tok = some 0 := by
    have hpw : (match front.getLast? with
        | some c => pyIsWord c
        | none => false) = false := by
      rcases hfront with rfl | ⟨c, hc, hcs⟩
      · rfl
      · simp only [hc]
        exact space_not_word c hcs
    rw [hpw]
    cases htok0 : tok with
    | nil => exact absurd htok0 htok
    | cons c rest =>
      have hcw : pyIsWord c = true := hw c (by rw [htok0]; rfl)
      exact firstBoundary_start c rest hcw
  have hs := search_parts front tok tl 0 hfront hns htok htl hfb
  rw [List.take_zero, List.drop_zero] at hs
  cases hlk : List.lookup tok mapping with
  | some better =>
    have h1 := update_street_some (front ++ tok ++ tl) front [] tok tl better mapping hs hlk
    rw [h1]
    simp
  | none =>
    have h1 := update_street_nokey (front ++ tok ++ tl) front [] tok tl mapping hs hlk
    rw [h1]

/-- Claim C6, witness: `Main St` is covered by the amended claim and is
rewritten to `Main Street`. -/
theorem C6_witness :
    update_street_name (sl "Main " ++ sl "St" ++ []) mapping =
      sl "Main " ++ sl "Street" ++ [] := by
  have h := C6_theorem (sl "Main ") (sl "St") []
    (Or.inr ⟨' ', by decide, by decide⟩)
    (by decide)
    (by decide)
    (fun c hc => by
      have hc2 : c = 'S' := by
        have : (sl "St").head? = some 'S' := by decide
        rw [this] at hc
        exact (Option.some_inj.mp hc).symm
      rw [hc2]
      decide)
    (Or.inl rfl)
  exact h.trans (by decide)

/-! ## Claim C8 -/

/-- Claim C8: `update_street_name` is idempotent with the program's
mapping: no expansion produced by a substitution can itself be matched and
found in the table again (expansions are whitespace-free words starting
with a word character and are not keys), so a second pass is the
identity. -/
theorem C8_theorem (name : List Char) :
    update_street_name (update_street_name name mapping) mapping =
      update_street_name name mapping := by
  cases hs : street_type_re_search name with
  | none =>
    have h1 := update_street_nomatch name mapping hs
    rw [h1]
    exact h1
  | some quad =>
    obtain ⟨front, skipped, tok, tl⟩ := quad
    obtain ⟨hname, htl, hfront, hall, hfb, htok⟩ :=
      search_eq_some name front skipped tok tl hs
    cases hlk : List.lookup tok mapping with
    | none =>
      have h1 := update_street_nokey name front skipped tok tl mapping hs hlk
      rw [h1]
      exact h1
    | some better =>
      have hmem : (tok, better) ∈ mapping := lookup_mem hlk
      have hkey := mapping_key_head _ hmem
      obtain ⟨hvw, hvall, hvne, hvlk⟩ := mapping_val_props _ hmem
      cases htok0 : tok with
      | nil => exact absurd htok0 htok
      | cons c rest =>
        cases hbet : better with
        | nil =>
          rw [hbet] at hvne
          exact absurd rfl hvne
        | cons c2 rest2 =>
          have hcw : pyIsWord c = true := by
            rw [htok0] at hkey
            exact hkey
          have hc2w : pyIsWord c2 = true := by
            rw [hbet] at hvw
            exact hvw
          rw [htok0] at hfb
          have hfb2 : firstBoundary (match front.getLast? with
              | some c => pyIsWord c
              | none => false) (skipped ++ better) = some skipped.length := by
            rw [hbet]
            exact firstBoundary_congr skipped _ c c2 rest rest2 hfb
              (by rw [hc2w, hcw])
          have hall2 : (skipped ++ better).all (fun c => !pyIsSpace c) = true := by
            rw [List.all_append] at hall ⊢
            rw [Bool.and_eq_true] at hall ⊢
            refine ⟨hall.1, ?_⟩
            exact hvall
          have hne2 : skipped ++ better ≠ [] := by
            intro hx
            rcases List.append_eq_nil.mp hx with ⟨_, h2⟩
            exact hvne h2
          have hs2 := search_parts front (skipped ++ better) tl skipped.length
            hfront hall2 hne2 htl hfb2
          rw [List.take_left, List.drop_left] at hs2
          have hr : front ++ (skipped ++ better) ++ tl =
              front ++ skipped ++ better ++ tl := by
            rw [← List.append_assoc front skipped better]
          rw [hr] at hs2
          have hupd1 := update_street_some name front skipped tok tl better mapping hs hlk
          rw [hupd1]
          exact update_street_nokey _ front skipped better tl mapping hs2 hvlk

/-! ## Claim C1 -/

/-- The embedded `postcode_format_re.search` accepts exactly the strings
described by `PostcodeSpec`. -/
theorem postcode_search_iff (s : List Char) :
    postcode_format_re_search s = true ↔ PostcodeSpec s := by
  constructor
  · intro h
    unfold postcode_format_re_search at h
    simp only [Bool.and_eq_true, Bool.or_eq_true, decide_eq_true_eq, beq_iff_eq] at h
    obtain ⟨⟨hlen, hdig⟩, hor⟩ := h
    refine ⟨s.take 5, s.drop 5, (List.take_append_drop 5 s).symm, ?_, hdig, ?_⟩
    · rw [List.length_take]
      omega
    · rcases hor with h5 | hgrp
      · rcases h5 with h5 | h5
        · exact Or.inl h5
        · exact Or.inr (Or.inl h5)
      · right
        right
        cases hd : s.drop 5 with
        | nil =>
          rw [hd] at hgrp
          obtain ⟨⟨⟨hsep, _⟩, _⟩, _⟩ := hgrp
          exact absurd hsep (by decide)
        | cons c rest =>
          rw [hd] at hgrp
          obtain ⟨⟨⟨hsep, hlen4⟩, hdig4⟩, hdol⟩ := hgrp
          have h6 : s.drop 6 = rest := by
            calc s.drop 6 = (s.drop 5).drop 1 := by rw [List.drop_drop]
              _ = rest := by rw [hd]; rfl
          have h10 : s.drop 10 = rest.drop 4 := by
            calc s.drop 10 = (s.drop 5).drop 5 := by rw [List.drop_drop]
              _ = rest.drop 4 := by rw [hd]; rfl
          rw [h6] at hlen4 hdig4
          rw [h10] at hdol
          refine ⟨c, rest.take 4, rest.drop 4, ?_, ?_, ?_, ?_, ?_⟩
          · rw [List.take_append_drop]
          · simpa [Bool.or_eq_true, beq_iff_eq] using hsep
          · rw [List.length_take]
            omega
          · exact hdig4
          · exact hdol
  · intro hspec
    obtain ⟨d, r, hcode, hlen, hdig, hr⟩ := hspec
    subst hcode
    have htake : (d ++ r).take 5 = d := List.take_left' hlen
    have hdrop : (d ++ r).drop 5 = r := List.drop_left' hlen
    unfold postcode_format_re_search
    simp only [Bool.and_eq_true, Bool.or_eq_true, decide_eq_true_eq, beq_iff_eq]
    refine ⟨⟨?_, ?_⟩, ?_⟩
    · rw [List.length_append]
      omega
    · rw [htake]
      exact hdig
    · rcases hr with rfl | rfl | ⟨sep, e, tt, hre, hsep, hlen4, hdig4, htt⟩
      · exact Or.inl (Or.inl (by rw [hdrop]))
      · exact Or.inl (Or.inr (by rw [hdrop]))
      · subst hre
        have h6 : (d ++ (sep :: (e ++ tt))).drop 6 = e ++ tt := by
          calc (d ++ (sep :: (e ++ tt))).drop 6
              = ((d ++ (sep :: (e ++ tt))).drop 5).drop 1 := by rw [List.drop_drop]
            _ = e ++ tt := by rw [hdrop]; rfl
        have h10 : (d ++ (sep :: (e ++ tt))).drop 10 = tt := by
          calc (d ++ (sep :: (e ++ tt))).drop 10
              = ((d ++ (sep :: (e ++ tt))).drop 6).drop 4 := by rw [List.drop_drop]
            _ = (e ++ tt).drop 4 := by rw [h6]
            _ = tt := List.drop_left' hlen4
        refine Or.inr ⟨⟨⟨?_, ?_⟩, ?_⟩, ?_⟩
        · rw [hdrop]
          simpa [Bool.or_eq_true, beq_iff_eq] using hsep
        · rw [h6, List.length_append]
          omega
        · rw [h6, List.take_left' hlen4]
          exact hdig4
        · rw [h10]
          exact htt

/-- Claim C1, counterexample: by Python semantics `$` also matches just
before one trailing newline, so `12345` followed by a newline is accepted
and truncated, while the claim (5 digits, or 5 digits, hyphen or space,
4 digits, and nothing else) calls this string invalid and demands it be
returned unchanged with flag true. -/
theorem C1_counterexample :
    update_postcode (sl "12345\n") true = (false, sl "12345") ∧
    claim_postcode_valid (sl "12345\n") = false := by decide

/-- Claim C1 (amended): `update_postcode` returns `(false, first five
characters)` exactly on strings of 5 digits, optionally followed by one
hyphen or one Python-whitespace character (space, tab, newline, ...) and 4
digits, in each case optionally followed by a single trailing newline; on
every other string it returns `(true, unchanged)`. -/
theorem C1_theorem (code : List Char) :
    (PostcodeSpec code → update_postcode code true = (false, code.take 5)) ∧
    (¬ PostcodeSpec code → update_postcode code true = (true, code)) := by
  constructor
  · intro h
    unfold update_postcode
    rw [if_pos ((postcode_search_iff code).mpr h)]
  · intro h
    unfold update_postcode
    rw [if_neg (fun hc => h ((postcode_search_iff code).mp hc))]

/-- Claim C1, witness: a plain 5-digit code is accepted, and a 3-digit
code is rejected unchanged. -/
theorem C1_witness :
    update_postcode (sl "98199") true = (false, (sl "98199").take 5) ∧
    update_postcode (sl "123") true = (true, sl "123") := by
  constructor
  · exact (C1_theorem (sl "98199")).1 ⟨sl "98199", [], by simp, by decide, by decide, Or.inl rfl⟩
  · refine (C1_theorem (sl "123")).2 ?_
    intro hspec
    obtain ⟨d, r, hcode, hlen, hdig, hr⟩ := hspec
    have h3 : (d ++ r).length = 3 := by
      rw [← hcode]
      rfl
    rw [List.length_append] at h3
    omega

/-! ## Evaluation of the tag-shaping step -/

/-- The two tag loops are textually identical in the source. -/
theorem way_shape_tag_eq_node : way_shape_tag = node_shape_tag := rfl

/-- A tag whose raw key has a problem character produces no record. -/
theorem node_shape_tag_drop (problem_chars default_tag_type idv : List Char)
    (tag : OsmTag) (hpc : re_class_search problem_chars tag.k = true) :
    node_shape_tag problem_chars default_tag_type idv tag = none := by
  unfold node_shape_tag
  rw [if_pos hpc]

/-- When `update_postcode` signals invalid it returns the value unchanged. -/
theorem update_postcode_invalid (v : List Char)
    (h : (update_postcode v true).1 = true) : update_postcode v true = (true, v) := by
  unfold update_postcode at h ⊢
  cases hs : postcode_format_re_search v with
  | true =>
    rw [hs] at h
    exact Bool.noConfusion h
  | false => rfl

/-- Full evaluation of the tag-shaping step on a clean key: the type and
key follow the colon-split rule, and the value passes the city step (by
key), then street normalization (unconditionally: the source condition is
a truthy-literal disjunction), then the postcode step (by key). -/
theorem node_shape_tag_eq (idv : List Char) (tag : OsmTag)
    (hpc : re_class_search PROBLEMCHARS tag.k = false) :
    node_shape_tag PROBLEMCHARS (sl "regular") idv tag = some
      { id := idv, key := tag_key_of tag.k,
        value := postcode_step (tag_key_of tag.k)
          (update_street_name (city_step (tag_key_of tag.k) tag.v) mapping),
        type := tag_type_of tag.k } := by
  unfold node_shape_tag
  rw [if_neg (by rw [hpc]; simp)]
  have hstreet : ∀ ky : List Char,
      (ky == sl "street" || pyTruthy (sl "street:name")) = true := by
    intro ky
    rw [show pyTruthy (sl "street:name") = true from by decide, Bool.or_true]
  simp only [hstreet, if_true]
  unfold tag_key_of tag_type_of city_step postcode_step
  simp only [beq_iff_eq]

/-! ## Claim C3 -/

/-- Claim C3: the street-key condition in both tag loops is an always-true
expression, so every emitted Tag Record value has passed through
`update_street_name`, whatever the key: the value is always the composite
city-step / street-normalization / postcode-step of the raw value. -/
theorem C3_theorem (idv : List Char) (tag : OsmTag) (rec : TagRecord) :
    (node_shape_tag PROBLEMCHARS (sl "regular") idv tag = some rec →
      rec.value = postcode_step rec.key
        (update_street_name (city_step rec.key tag.v) mapping)) ∧
    (way_shape_tag PROBLEMCHARS (sl "regular") idv tag = some rec →
      rec.value = postcode_step rec.key
        (update_street_name (city_step rec.key tag.v) mapping)) := by
  have hmain : node_shape_tag PROBLEMCHARS (sl "regular") idv tag = some rec →
      rec.value = postcode_step rec.key
        (update_street_name (city_step rec.key tag.v) mapping) := by
    intro h
    cases hpc : re_class_search PROBLEMCHARS tag.k with
    | true =>
      rw [node_shape_tag_drop _ _ _ _ hpc] at h
      exact Option.noConfusion h
    | false =>
      rw [node_shape_tag_eq idv tag hpc] at h
      injection h with h
      subst h
      rfl
  exact ⟨hmain, by rw [way_shape_tag_eq_node]; exact hmain⟩

/-- Claim C3, witness: a tag with key `name` (not a street key) still has
its value street-normalized, so `Main St` is stored as `Main Street`. -/
theorem C3_witness :
    ({ id := sl "1", key := sl "name", value := sl "Main Street",
       type := sl "regular" } : TagRecord).value =
      postcode_step (sl "name")
        (update_street_name (city_step (sl "name") (sl "Main St")) mapping) :=
  (C3_theorem (sl "1") { k := sl "name", v := sl "Main St" }
    { id := sl "1", key := sl "name", value := sl "Main Street",
      type := sl "regular" }).1 rfl

/-! ## Claim C2 -/

/-- Claim C2, counterexample: for the raw tag value `123 St` under key
`addr:postcode`, the emitted value is `fixme:123 Street`, not
`fixme:123 St`: street normalization runs on every tag value before the
postcode check, so the prefixed value is not the original raw value. -/
theorem C2_counterexample :
    (extract_node elPost NODE_FIELDS PROBLEMCHARS (sl "regular")).map
      (fun r => r.node_tags.map (fun rec => rec.value)) = .ok [sl "fixme:123 Street"] ∧
    sl "fixme:123 Street" ≠ sl "fixme:" ++ sl "123 St" :=
  ⟨rfl, by decide⟩

/-- Claim C2 (amended): for a postcode-keyed tag whose street-normalized
value fails the postcode check, the emitted value is the literal `fixme:`
prefix concatenated with the street-normalized raw value (not the raw
value itself: `update_street_name` runs first). -/
theorem C2_theorem (idv : List Char) (tag : OsmTag) (rec : TagRecord) :
    (node_shape_tag PROBLEMCHARS (sl "regular") idv tag = some rec →
      tag_key_of tag.k = sl "postcode" →
      (update_postcode (update_street_name tag.v mapping) true).1 = true →
      rec.value = sl "fixme:" ++ update_street_name tag.v mapping) ∧
    (way_shape_tag PROBLEMCHARS (sl "regular") idv tag = some rec →
      tag_key_of tag.k = sl "postcode" →
      (update_postcode (update_street_name tag.v mapping) true).1 = true →
      rec.value = sl "fixme:" ++ update_street_name tag.v mapping) := by
  have hmain : node_shape_tag PROBLEMCHARS (sl "regular") idv tag = some rec →
      tag_key_of tag.k = sl "postcode" →
      (update_postcode (update_street_name tag.v mapping) true).1 = true →
      rec.value = sl "fixme:" ++ update_street_name tag.v mapping := by
    intro h hkey hinv
    cases hpc : re_class_search PROBLEMCHARS tag.k with
    | true =>
      rw [node_shape_tag_drop _ _ _ _ hpc] at h
      exact Option.noConfusion h
    | false =>
      rw [node_shape_tag_eq idv tag hpc] at h
      injection h with h
      subst h
      show postcode_step (tag_key_of tag.k)
        (update_street_name (city_step (tag_key_of tag.k) tag.v) mapping) = _
      rw [hkey]
      have hcity : city_step (sl "postcode") tag.v = tag.v := by
        unfold city_step
        rw [if_neg (by decide)]
      rw [hcity]
      unfold postcode_step
      rw [if_pos rfl]
      show (if (update_postcode (update_street_name tag.v mapping) true).1
          then sl "fixme:" ++ (update_postcode (update_street_name tag.v mapping) true).2
          else (update_postcode (update_street_name tag.v mapping) true).2) =
        sl "fixme:" ++ update_street_name tag.v mapping
      rw [update_postcode_invalid _ hinv]
      rfl
  exact ⟨hmain, by rw [way_shape_tag_eq_node]; exact hmain⟩

/-- Claim C2, witness: the invalid postcode `123 St` is emitted as
`fixme:` plus its street-normalized form. -/
theorem C2_witness :
    ({ id := sl "1", key := sl "postcode", value := sl "fixme:123 Street",
       type := sl "addr" } : TagRecord).value =
      sl "fixme:" ++ update_street_name (sl "123 St") mapping :=
  (C2_theorem (sl "1") { k := sl "addr:postcode", v := sl "123 St" }
    { id := sl "1", key := sl "postcode", value := sl "fixme:123 Street",
      type := sl "addr" }).1 rfl (by decide) (by decide)

/-! ## Claim C5 -/

/-- Claim C5: a tag child whose raw key has a character of the forbidden
class is dropped by both extractors; otherwise a record is emitted whose
type and key follow the first-colon split rule, with literal type
`regular` for colon-free keys. -/
theorem C5_theorem (idv : List Char) (tag : OsmTag) :
    (re_class_search PROBLEMCHARS tag.k = true →
      node_shape_tag PROBLEMCHARS (sl "regular") idv tag = none ∧
      way_shape_tag PROBLEMCHARS (sl "regular") idv tag = none) ∧
    (re_class_search PROBLEMCHARS tag.k = false →
      ∃ recN recW,
        node_shape_tag PROBLEMCHARS (sl "regular") idv tag = some recN ∧
        way_shape_tag PROBLEMCHARS (sl "regular") idv tag = some recW ∧
        recN.type = tag_type_of tag.k ∧ recN.key = tag_key_of tag.k ∧
        recW.type = tag_type_of tag.k ∧ recW.key = tag_key_of tag.k) := by
  constructor
  · intro hpc
    refine ⟨node_shape_tag_drop _ _ _ _ hpc, ?_⟩
    rw [way_shape_tag_eq_node]
    exact node_shape_tag_drop _ _ _ _ hpc
  · intro hpc
    have hway : way_shape_tag PROBLEMCHARS (sl "regular") idv tag = some
        { id := idv, key := tag_key_of tag.k,
          value := postcode_step (tag_key_of tag.k)
            (update_street_name (city_step (tag_key_of tag.k) tag.v) mapping),
          type := tag_type_of tag.k } := by
      rw [way_shape_tag_eq_node]
      exact node_shape_tag_eq idv tag hpc
    exact ⟨_, _, node_shape_tag_eq idv tag hpc, hway, rfl, rfl, rfl, rfl⟩

/-- Claim C5, witness: `bad key` (space) is dropped by both extractors,
and `addr:city` splits into type `addr` and key `city`. -/
theorem C5_witness :
    (node_shape_tag PROBLEMCHARS (sl "regular") (sl "1")
        { k := sl "bad key", v := sl "x" } = none ∧
     way_shape_tag PROBLEMCHARS (sl "regular") (sl "1")
        { k := sl "bad key", v := sl "x" } = none) ∧
    (∃ recN recW,
      node_shape_tag PROBLEMCHARS (sl "regular") (sl "1")
          { k := sl "addr:city", v := sl "seattle" } = some recN ∧
      way_shape_tag PROBLEMCHARS (sl "regular") (sl "1")
          { k := sl "addr:city", v := sl "seattle" } = some recW ∧
      recN.type = tag_type_of (sl "addr:city") ∧
      recN.key = tag_key_of (sl "addr:city") ∧
      recW.type = tag_type_of (sl "addr:city") ∧
      recW.key = tag_key_of (sl "addr:city")) :=
  ⟨(C5_theorem (sl "1") { k := sl "bad key", v := sl "x" }).1 (by decide),
   (C5_theorem (sl "1") { k := sl "addr:city", v := sl "seattle" }).2 (by decide)⟩

/-! ## Claim C4 -/

/-- Claim C4: the suffix-membership conditional of `update_city_name` is a
truthy string literal, so the trailing-character strip over the set
containing comma, space, `W` and `A` always runs, and the result is then
capword-cased: split on whitespace, capitalize each word (first letter
upper, rest lower), join with single spaces. -/
theorem C4_theorem (name : List Char) :
    update_city_name name =
      List.intercalate [' ']
        ((pySplitWs (pyRstrip name [',', ' ', 'W', 'A'])).map pyCapitalize) := by
  have hcond : (pyTruthy (sl ", WA") || pyInStr (sl ",WA") name) = true := by
    rw [show pyTruthy (sl ", WA") = true from by decide, Bool.true_or]
  unfold update_city_name
  rw [hcond]
  rfl

/-! ## Claim C7 -/

/-- Claim C7: `extract_way` emits one Way-Node Record per `nd` child of
the way, in document order: the node ids are exactly the `ref` values in
order and the positions are exactly `0, 1, 2, ...`. -/
theorem C7_theorem (element : OsmElement) (r : WayOut)
    (h : extract_way element WAY_FIELDS PROBLEMCHARS (sl "regular") = .ok r) :
    r.way_nodes.map (fun wn => wn.node_id) = element.nds ∧
    r.way_nodes.map (fun wn => wn.position) = List.range element.nds.length := by
  unfold extract_way at h
  split at h
  · exact Except.noConfusion h
  · split at h
    · exact Except.noConfusion h
    · injection h with h
      subst h
      constructor
      · rw [List.map_map]
        exact List.enum_map_snd element.nds
      · rw [List.map_map]
        exact List.enum_map_fst element.nds

/-- Claim C7, witness: a way with `nd` refs `n1, n2, n3` yields those node
ids at positions `0, 1, 2`. -/
theorem C7_witness :
    (extract_way elWay3 WAY_FIELDS PROBLEMCHARS (sl "regular") = .ok
      { way := [(sl "id", sl "7"), (sl "user", sl "u"), (sl "uid", sl "2"),
                (sl "version", sl "1"), (sl "changeset", sl "3"), (sl "timestamp", sl "t")],
        way_nodes := [{ id := sl "7", node_id := sl "n1", position := 0 },
                      { id := sl "7", node_id := sl "n2", position := 1 },
                      { id := sl "7", node_id := sl "n3", position := 2 }],
        way_tags := [] }) ∧
    ([{ id := sl "7", node_id := sl "n1", position := 0 },
      { id := sl "7", node_id := sl "n2", position := 1 },
      { id := sl "7", node_id := sl "n3", position := 2 }] : List WayNodeRecord).map
        (fun wn => wn.node_id) = elWay3.nds ∧
    ([{ id := sl "7", node_id := sl "n1", position := 0 },
      { id := sl "7", node_id := sl "n2", position := 1 },
      { id := sl "7", node_id := sl "n3", position := 2 }] : List WayNodeRecord).map
        (fun wn => wn.position) = List.range elWay3.nds.length := by
  refine ⟨rfl, ?_, ?_⟩
  · exact (C7_theorem elWay3 _ rfl).1
  · exact (C7_theorem elWay3 _ rfl).2

/-! ## Claim C9 -/

/-- A successful attribute extraction copies exactly the requested fields,
in order, with the values found in the element's attributes. -/
theorem ea_ok_char (fields : List (List Char)) (attrib : List (List Char × List Char))
    (l : List (List Char × List Char)) (h : extract_attribs fields attrib = .ok l) :
    l.map Prod.fst = fields ∧ ∀ p ∈ l, List.lookup p.1 attrib = some p.2 := by
  induction fields generalizing l with
  | nil =>
    unfold extract_attribs at h
    injection h with h
    subst h
    simp
  | cons f rest ih =>
    unfold extract_attribs at h
    cases hlk : List.lookup f attrib with
    | none =>
      rw [hlk] at h
      exact Except.noConfusion h
    | some v =>
      rw [hlk] at h
      cases hrec : extract_attribs rest attrib with
      | error e =>
        rw [hrec] at h
        exact Except.noConfusion h
      | ok l0 =>
        rw [hrec] at h
        injection h with h
        subst h
        obtain ⟨ih1, ih2⟩ := ih l0 hrec
        constructor
        · rw [List.map_cons, ih1]
        · intro p hp
          rcases List.mem_cons.mp hp with rfl | hp2
          · exact hlk
          · exact ih2 p hp2

/-- If every requested field is present, attribute extraction succeeds. -/
theorem ea_total (fields : List (List Char)) (attrib : List (List Char × List Char))
    (h : ∀ f ∈ fields, (List.lookup f attrib).isSome = true) :
    ∃ l, extract_attribs fields attrib = .ok l := by
  induction fields with
  | nil => exact ⟨[], rfl⟩
  | cons f rest ih =>
    have hf := h f (List.mem_cons_self _ _)
    cases hlk : List.lookup f attrib with
    | none =>
      rw [hlk] at hf
      exact absurd hf (by decide)
    | some v =>
      obtain ⟨l0, hl0⟩ := ih (fun g hg => h g (List.mem_cons_of_mem _ hg))
      refine ⟨(f, v) :: l0, ?_⟩
      unfold extract_attribs
      rw [hlk, hl0]
      rfl

/-- A successful attribute extraction needs every requested field. -/
theorem ea_ok_isSome (fields : List (List Char)) (attrib : List (List Char × List Char))
    (l : List (List Char × List Char)) (h : extract_attribs fields attrib = .ok l) :
    ∀ f ∈ fields, (List.lookup f attrib).isSome = true := by
  intro f hf
  obtain ⟨h1, h2⟩ := ea_ok_char fields attrib l h
  rw [← h1] at hf
  rcases List.mem_map.mp hf with ⟨p, hp, hfp⟩
  rw [← hfp, h2 p hp]
  rfl

/-- Claim C9: the attribute records of `extract_node` and `extract_way`
copy each field of the fixed field list verbatim from the element's
attributes, and extraction returns a record exactly when every required
field is present (otherwise it fails with an error naming a field). -/
theorem C9_theorem (element : OsmElement) :
    ((∀ f ∈ NODE_FIELDS, (List.lookup f element.attrib).isSome = true) ↔
      ∃ r, extract_node element NODE_FIELDS PROBLEMCHARS (sl "regular") = .ok r) ∧
    (∀ r, extract_node element NODE_FIELDS PROBLEMCHARS (sl "regular") = .ok r →
      r.node.map Prod.fst = NODE_FIELDS ∧
      ∀ fv ∈ r.node, List.lookup fv.1 element.attrib = some fv.2) ∧
    ((∀ f ∈ WAY_FIELDS, (List.lookup f element.attrib).isSome = true) ↔
      ∃ r, extract_way element WAY_FIELDS PROBLEMCHARS (sl "regular") = .ok r) ∧
    (∀ r, extract_way element WAY_FIELDS PROBLEMCHARS (sl "regular") = .ok r →
      r.way.map Prod.fst = WAY_FIELDS ∧
      ∀ fv ∈ r.way, List.lookup fv.1 element.attrib = some fv.2) := by
  refine ⟨⟨?_, ?_⟩, ?_, ⟨?_, ?_⟩, ?_⟩
  · intro hall
    obtain ⟨l, hl⟩ := ea_total NODE_FIELDS element.attrib hall
    have hid : (sl "id") ∈ l.map Prod.fst := by
      rw [(ea_ok_char _ _ _ hl).1]
      decide
    cases hlk : List.lookup (sl "id") l with
    | none =>
      have h2 := lookup_isSome_of_mem_keys hid
      rw [hlk] at h2
      exact absurd h2 (by decide)
    | some idv =>
      refine ⟨{ node := l,
                node_tags := element.tags.filterMap
                  (node_shape_tag PROBLEMCHARS (sl "regular") idv) }, ?_⟩
      unfold extract_node
      simp only [hl, hlk]
  · intro hex
    obtain ⟨r, hr⟩ := hex
    unfold extract_node at hr
    split at hr
    · exact Except.noConfusion hr
    · rename_i attribs ha
      exact ea_ok_isSome _ _ _ ha
  · intro r hr
    unfold extract_node at hr
    split at hr
    · exact Except.noConfusion hr
    · rename_i attribs ha
      split at hr
      · exact Except.noConfusion hr
      · injection hr with hr
        subst hr
        exact ea_ok_char _ _ _ ha
  · intro hall
    obtain ⟨l, hl⟩ := ea_total WAY_FIELDS element.attrib hall
    have hid : (sl "id") ∈ l.map Prod.fst := by
      rw [(ea_ok_char _ _ _ hl).1]
      decide
    cases hlk : List.lookup (sl "id") l with
    | none =>
      have h2 := lookup_isSome_of_mem_keys hid
      rw [hlk] at h2
      exact absurd h2 (by decide)
    | some idv =>
      refine ⟨{ way := l,
                way_nodes := element.nds.enum.map
                  (fun p => { id := idv, node_id := p.2, position := p.1 }),
                way_tags := element.tags.filterMap
                  (way_shape_tag PROBLEMCHARS (sl "regular") idv) }, ?_⟩
      unfold extract_way
      simp only [hl, hlk]
  · intro hex
    obtain ⟨r, hr⟩ := hex
    unfold extract_way at hr
    split at hr
    · exact Except.noConfusion hr
    · rename_i attribs ha
      exact ea_ok_isSome _ _ _ ha
  · intro r hr
    unfold extract_way at hr
    split at hr
    · exact Except.noConfusion hr
    · rename_i attribs ha
      split at hr
      · exact Except.noConfusion hr
      · injection hr with hr
        subst hr
        exact ea_ok_char _ _ _ ha

/-- Claim C9, witness: the complete node and way elements extract
successfully. -/
theorem C9_witness :
    (∃ r, extract_node elNode NODE_FIELDS PROBLEMCHARS (sl "regular") = .ok r) ∧
    (∃ r, extract_way elWay3 WAY_FIELDS PROBLEMCHARS (sl "regular") = .ok r) :=
  ⟨(C9_theorem elNode).1.mp (by decide), (C9_theorem elWay3).2.2.1.mp (by decide)⟩

/-! ## Claim C10 -/

/-- Claim C10: for an element whose kind is neither `node` nor `way`,
`extract_element` returns no result and the per-element writing step of
the driver produces no rows; for `node` and `way` elements every returned
result is a (non-`none`) record mapping. -/
theorem C10_theorem (element : OsmElement) :
    (element.tag ≠ sl "node" → element.tag ≠ sl "way" →
      extract_element element (sl "regular") = .ok none ∧
      element_rows element = .ok emptyBatch) ∧
    (∀ res, extract_element element (sl "regular") = .ok res →
      element.tag = sl "node" ∨ element.tag = sl "way" → res.isSome = true) := by
  constructor
  · intro hn hw
    have hbn : (element.tag == sl "node") = false := beq_eq_false_iff_ne.mpr hn
    have hbw : (element.tag == sl "way") = false := beq_eq_false_iff_ne.mpr hw
    have hee : extract_element element (sl "regular") = .ok none := by
      unfold extract_element
      rw [hbn, hbw]
      rfl
    refine ⟨hee, ?_⟩
    unfold element_rows
    rw [hee]
  · intro res hres htag
    unfold extract_element at hres
    rcases htag with htag | htag
    · rw [if_pos (by rw [htag]; rfl)] at hres
      cases hx : extract_node element NODE_FIELDS PROBLEMCHARS (sl "regular") with
      | error e =>
        rw [hx] at hres
        exact Except.noConfusion hres
      | ok r =>
        rw [hx] at hres
        injection hres with hres
        rw [← hres]
        rfl
    · have hbn : (element.tag == sl "node") = false := by
        rw [htag]
        decide
      rw [hbn] at hres
      rw [if_neg (by decide)] at hres
      rw [if_pos (by rw [htag]; rfl)] at hres
      cases hx : extract_way element WAY_FIELDS PROBLEMCHARS (sl "regular") with
      | error e =>
        rw [hx] at hres
        exact Except.noConfusion hres
      | ok r =>
        rw [hx] at hres
        injection hres with hres
        rw [← hres]
        rfl

/-- Claim C10, witness: a `relation` element yields no result and no
rows. -/
theorem C10_witness :
    extract_element elRel (sl "regular") = .ok none ∧
    element_rows elRel = .ok emptyBatch :=
  (C10_theorem elRel).1 (by decide) (by decide)

end Wrangle

